import Mathlib

/-!
Verification of the cycleOptima_esp phase/component scheduling engine
(`src/main/main.c`, `src/main/main.h`).

The C program is shallowly embedded below.  The machine `uint32_t`
arithmetic of the source is modelled on `Nat` with an explicit modulus
`M = 2 ^ 32` at every addition the C performs in `uint32_t`; the
`uint32_t` subtractions in the source (`target_duration - total_runtime`)
only happen under loop guards guaranteeing `total < target`, where Nat
truncated subtraction agrees with the machine subtraction.

Observable behaviour (calls to `gpio_set_level` and `vTaskDelay`) is
modelled as a trace of `Action`s produced by each embedded function, in
the order the C code performs them.
-/

namespace CycleOptima

/-- Modulus of `uint32_t` arithmetic. -/
def M : Nat := 4294967296

/-- Pin numbers from `src/main/main.h`. -/
def RETRACTOR_PIN : Int := 7

def DRAIN_VALVE_PIN : Int := 6

def COLD_VALVE_PIN : Int := 9

def DRAIN_PUMP_PIN : Int := 19

def HOT_VALVE_PIN : Int := 5

def SOFT_VALVE_PIN : Int := 18

def MOTOR_ON_PIN : Int := 4

def MOTOR_DIRECTION_PIN : Int := 10

/-- One observable hardware interaction: a `gpio_set_level(pin, level)`
call or a `vTaskDelay` of the given number of milliseconds. -/
inductive Action where
  | setLevel (pin : Int) (level : Nat)
  | delay (ms : Nat)
deriving DecidableEq, Repr

/-- The compiled-in actuator table `component_states` of `main.c`
(name and pin fields; the `is_active` flag is never read). -/
def component_states : List (String × Int) :=
  [("Retractor", RETRACTOR_PIN),
   ("Drain Valve", DRAIN_VALVE_PIN),
   ("Cold Valve", COLD_VALVE_PIN),
   ("Drain Pump", DRAIN_PUMP_PIN),
   ("Hot Valve", HOT_VALVE_PIN),
   ("Softener Valve", SOFT_VALVE_PIN),
   ("Motor", MOTOR_ON_PIN),
   ("Motor Direction", MOTOR_DIRECTION_PIN)]

/-- `map_name_to_pin` of `main.c`: linear scan of `component_states` by
exact string comparison (`strcmp == 0`), returning `-1` when absent. -/
def map_name_to_pin (name : String) : Int :=
  match component_states.find? (fun e => e.1 == name) with
  | some e => e.2
  | none => -1

/-- `MotorPattern` struct of `main.c` (times are `uint32_t` ms). -/
structure MotorPattern where
  stepTime : Nat
  direction : String
  pauseTime : Nat
deriving DecidableEq, Repr

/-- `MotorConfig` struct of `main.c`; `pattern_count` is the length of
the embedded list. -/
structure MotorConfig where
  pattern : List MotorPattern
  repeatTimes : Nat
  runningStyle : String
deriving DecidableEq, Repr

/-- `ComponentInput` struct of `main.c`.  The three legacy fields are
written by the loader (to `0`, `"toggle"`, `0`) and never read by the
execution engine. -/
structure ComponentInput where
  compId : String
  pin : Int
  start : Nat
  duration : Nat
  stepTime : Nat
  runningStyle : String
  pauseTime : Nat
  motorConfig : Option MotorConfig
deriving DecidableEq, Repr

/-- `Phase` struct of `main.c`; `num_components` is the list length. -/
structure Phase where
  name : String
  startTime : Nat
  components : List ComponentInput
deriving DecidableEq, Repr

/-- `ComponentTaskArg` struct of `main.c`. -/
structure ComponentTaskArg where
  compId : String
  pin : Int
  start : Nat
  duration : Nat
  motorConfig : Option MotorConfig
deriving DecidableEq, Repr

/-! ### Motor Pattern Engine (`run_motor_task`, main.c lines 119-184) -/

/-- Body of one iteration of the inner pattern loop of `run_motor_task`
(main.c lines 141-177), entered with the loop guard
`total_runtime < target_duration` satisfied.  Returns the actions
performed and the updated `total_runtime`.  `uint32_t` additions carry
an explicit `% M`; the two subtractions `target - total` happen under
guards giving `total < target` (resp. `total1 < target`), where Nat
subtraction equals the machine subtraction. -/
def run_motor_step (motor_on_pin : Int) (target total : Nat) (p : MotorPattern) :
    List Action × Nat :=
  let dirAct := Action.setLevel MOTOR_DIRECTION_PIN (if p.direction == "cw" then 0 else 1)
  let step_duration := if (p.stepTime + total) % M > target then target - total else p.stepTime
  let total1 := (total + step_duration) % M
  if total1 ≥ target then
    ([dirAct, Action.delay step_duration], total1)
  else if p.pauseTime > 0 then
    let pause_duration :=
      if (p.pauseTime + total1) % M > target then target - total1 else p.pauseTime
    let total2 := (total1 + pause_duration) % M
    if total2 < target then
      ([dirAct, Action.delay step_duration, Action.setLevel motor_on_pin 1,
        Action.delay pause_duration, Action.setLevel motor_on_pin 0], total2)
    else
      ([dirAct, Action.delay step_duration, Action.setLevel motor_on_pin 1,
        Action.delay pause_duration], total2)
  else
    ([dirAct, Action.delay step_duration], total1)

/-- The inner `for (i = 0; i < pattern_count && total_runtime < target; i++)`
loop of `run_motor_task`, over the remaining steps of the pattern. -/
def run_motor_steps (motor_on_pin : Int) (target : Nat) :
    List MotorPattern → Nat → List Action × Nat
  | [], total => ([], total)
  | p :: ps, total =>
    if total < target then
      let r1 := run_motor_step motor_on_pin target total p
      let r2 := run_motor_steps motor_on_pin target ps r1.2
      (r1.1 ++ r2.1, r2.2)
    else ([], total)

/-- The outer `for (repeat = 0; repeat < repeatTimes && total_runtime < target)`
loop of `run_motor_task`, counting the remaining repeats. -/
def run_motor_repeats (motor_on_pin : Int) (target : Nat) (pattern : List MotorPattern) :
    Nat → Nat → List Action × Nat
  | 0, total => ([], total)
  | k + 1, total =>
    if total < target then
      let r1 := run_motor_steps motor_on_pin target pattern total
      let r2 := run_motor_repeats motor_on_pin target pattern k r1.2
      (r1.1 ++ r2.1, r2.2)
    else ([], total)

/-- `run_motor_task` of `main.c` for a present motor configuration:
motor ON (active low, level 0) at line 131, the two nested loops, then
the unconditional motor OFF (level 1) at line 181. -/
def run_motor_task (motor_on_pin : Int) (mc : MotorConfig) (duration : Nat) : List Action :=
  Action.setLevel motor_on_pin 0 ::
    ((run_motor_repeats motor_on_pin duration mc.pattern mc.repeatTimes 0).1 ++
      [Action.setLevel motor_on_pin 1])

/-- Final `total_runtime` of `run_motor_task`. -/
def run_motor_total (mc : MotorConfig) (duration : Nat) : Nat :=
  (run_motor_repeats MOTOR_ON_PIN duration mc.pattern mc.repeatTimes 0).2

/-! ### Component Executor (`component_task`, main.c lines 185-213) -/

/-- `component_task` of `main.c`: wait `start` ms (skipped when zero),
then either delegate to `run_motor_task` (motor configuration present)
or drive the line low (ON), wait `duration`, drive it high (OFF). -/
def component_task (c : ComponentTaskArg) : List Action :=
  (if c.start > 0 then [Action.delay c.start] else []) ++
    (match c.motorConfig with
     | some mc => run_motor_task c.pin mc c.duration
     | none =>
       [Action.setLevel c.pin 0, Action.delay c.duration, Action.setLevel c.pin 1])

/-! ### Phase Scheduler (`run_phase` and the `app_main` loop) -/

/-- The `phase_duration` fold of `run_phase` (main.c lines 217-224):
maximum of `comp->start + comp->duration` (a `uint32_t` addition) over
the phase's components, starting from 0. -/
def phase_duration (comps : List ComponentInput) : Nat :=
  comps.foldl
    (fun pd comp =>
      let finish_time := (comp.start + comp.duration) % M
      if finish_time > pd then finish_time else pd)
    0

/-- The `ComponentTaskArg` that `run_phase` builds for a component
(main.c lines 226-233). -/
def mk_task_arg (comp : ComponentInput) : ComponentTaskArg :=
  { compId := comp.compId
    pin := comp.pin
    start := comp.start
    duration := comp.duration
    motorConfig := comp.motorConfig }

/-- The task arguments `run_phase` spawns, one per component in order. -/
def run_phase_spawned (p : Phase) : List ComponentTaskArg :=
  p.components.map mk_task_arg

/-- The scheduler's own wait at the end of `run_phase` (main.c line 253):
`vTaskDelay(phase_duration + 50)` (the `+ 50` is a `uint32_t` addition). -/
def run_phase_wait (p : Phase) : Action :=
  Action.delay ((phase_duration p.components + 50) % M)

/-- The inter-phase delay computed by the `app_main` loop
(main.c lines 415-418): `startTime - last_phase_start` when positive,
otherwise 0. -/
def this_delay (startTime last_phase_start : Nat) : Nat :=
  if startTime > last_phase_start then startTime - last_phase_start else 0

/-- The sequence of inter-phase delays `app_main` computes, threading
`last_phase_start` (initially 0, then the previous phase's `startTime`). -/
def sched_delays : Nat → List Phase → List Nat
  | _, [] => []
  | last, p :: ps => this_delay p.startTime last :: sched_delays p.startTime ps

/-- The scheduler's own action sequence over the phase list: the
inter-phase delay (performed only when positive, main.c line 420) and
the `run_phase` wait, per phase. -/
def scheduler_trace : Nat → List Phase → List Action
  | _, [] => []
  | last, p :: ps =>
    (if this_delay p.startTime last > 0 then [Action.delay (this_delay p.startTime last)]
     else []) ++
      (run_phase_wait p :: scheduler_trace p.startTime ps)

/-- All component-task arguments spawned over a whole program run. -/
def app_spawned (phases : List Phase) : List ComponentTaskArg :=
  phases.foldr (fun p acc => run_phase_spawned p ++ acc) []

/-! ### Configuration loader (`load_json_config`, main.c lines 256-368)

The loader is modelled on already-parsed JSON documents (cJSON parsing
of raw bytes is outside the embedded core).  The document types mirror
the object shapes the C code reads; fields the C reads through
`cJSON_GetObjectItem(...)->valueint` / `->valuestring` without a null
check are required fields here (a document missing them makes the C
dereference a null pointer rather than return failure), and fields the
C checks for presence (`motorConfig`, `repeatTimes`, `runningStyle`)
are `Option`s.  JSON integers are C `int` values, converted to
`uint32_t` by reduction mod `M`. -/

/-- One entry of a `pattern` array, as read by the loader. -/
structure JPattern where
  stepTime : Int
  direction : String
  pauseTime : Int
deriving DecidableEq, Repr

/-- A `motorConfig` object, as read by the loader.  The C code reads
`pattern` only when the key is present; when it is absent the C leaves
the pattern fields uninitialized, a path no claim depends on, so the
key is required here. -/
structure JMotorConfig where
  pattern : List JPattern
  repeatTimes : Option Int
  runningStyle : Option String
deriving DecidableEq, Repr

/-- One component object of the configuration document. -/
structure JComp where
  compId : String
  start : Int
  duration : Int
  motorConfig : Option JMotorConfig
deriving DecidableEq, Repr

/-- One phase object of the configuration document. -/
structure JPhase where
  name : String
  startTime : Int
  components : List JComp
deriving DecidableEq, Repr

/-- C conversion of a (32-bit) `int` JSON value to `uint32_t`. -/
def u32_of_int (i : Int) : Nat := (i % (M : Int)).toNat

/-- Loader translation of one pattern entry (main.c lines 317-324). -/
def load_pattern (j : JPattern) : MotorPattern :=
  { stepTime := u32_of_int j.stepTime
    direction := j.direction
    pauseTime := u32_of_int j.pauseTime }

/-- Loader translation of a present `motorConfig` (main.c lines 306-339):
`repeatTimes` defaults to 1 and `runningStyle` to `"Single Direction"`
when the keys are absent. -/
def load_motor_config (j : JMotorConfig) : MotorConfig :=
  { pattern := j.pattern.map load_pattern
    repeatTimes := u32_of_int (match j.repeatTimes with | some r => r | none => 1)
    runningStyle := match j.runningStyle with | some s => s | none => "Single Direction" }

/-- Loader translation of one component (main.c lines 295-347):
the pin is whatever `map_name_to_pin` returns — `-1` for an unknown
`compId` — with no check, and no field validation of any kind. -/
def load_component (j : JComp) : ComponentInput :=
  { compId := j.compId
    pin := map_name_to_pin j.compId
    start := u32_of_int j.start
    duration := u32_of_int j.duration
    stepTime := 0
    runningStyle := "toggle"
    pauseTime := 0
    motorConfig := j.motorConfig.map load_motor_config }

/-- Loader translation of one phase (main.c lines 282-290). -/
def load_phase (j : JPhase) : Phase :=
  { name := j.name
    startTime := u32_of_int j.startTime
    components := j.components.map load_component }

/-- `load_json_config` of `main.c` on a parsed document: fills the phase
table and returns `true`.  On a document that parsed, the C function has
no failure path — it performs no validation whatsoever. -/
def load_json_config (doc : List JPhase) : Bool × List Phase :=
  (true, doc.map load_phase)

/-! ### Trace observers -/

/-- Total milliseconds of `vTaskDelay` in a trace. -/
def elapsed : List Action → Nat
  | [] => 0
  | Action.delay d :: r => d + elapsed r
  | Action.setLevel _ _ :: r => elapsed r

/-- The sequence of levels written to a given pin by a trace. -/
def lineWrites (pin : Int) (tr : List Action) : List Nat :=
  tr.filterMap (fun a =>
    match a with
    | Action.setLevel p v => if p = pin then some v else none
    | Action.delay _ => none)

/-- The level of a pin after the whole trace ran, starting from `lv`. -/
def finalLevel (pin : Int) : List Action → Nat → Nat
  | [], lv => lv
  | Action.setLevel p v :: r, lv => finalLevel pin r (if p = pin then v else lv)
  | Action.delay _ :: r, lv => finalLevel pin r lv

/-- The level of a pin at time `t` (ms since the trace began), starting
from level `lv`: `setLevel` is instantaneous, `delay` advances time.  A
write at the exact query instant is already visible. -/
def levelAt (pin : Int) : List Action → Nat → Nat → Nat
  | [], lv, _ => lv
  | Action.setLevel p v :: r, lv, t => levelAt pin r (if p = pin then v else lv) t
  | Action.delay d :: r, lv, t => if t < d then lv else levelAt pin r lv (t - d)

/-- Undamped duration of one full pass over a pattern: the sum of
`stepTime + pauseTime` over its steps. -/
def pattern_total (ps : List MotorPattern) : Nat :=
  ps.foldr (fun p acc => p.stepTime + p.pauseTime + acc) 0

/-- Undamped duration of a whole motor configuration: `repeatTimes`
passes over the pattern. -/
def undamped_total (mc : MotorConfig) : Nat :=
  mc.repeatTimes * pattern_total mc.pattern

/-! ### Spec-side definitions for refinement comparisons -/

/-- Follows the spec's words (§4.2): `delay = max(0, phase.startOffset -
lastPhaseStart)`, computed over integers. -/
def spec_delay (startOffset lastPhaseStart : Nat) : Int :=
  max 0 ((startOffset : Int) - (lastPhaseStart : Int))

/-- Follows the spec's words (§4.2): the inter-phase delays with
`lastPhaseStart` initially 0 and set to the previous phase's start
offset afterward. -/
def spec_delays : Nat → List Phase → List Int
  | _, [] => []
  | last, p :: ps => spec_delay p.startTime last :: spec_delays p.startTime ps

/-- Follows the claim's words (C4): every write to the direction line is
immediately followed (as the very next action) by a write driving the
enable line Active (level 0). -/
def dir_write_then_enable (motor_on_pin : Int) : List Action → Bool
  | [] => true
  | [Action.setLevel p _] => decide (p ≠ MOTOR_DIRECTION_PIN)
  | Action.setLevel p _ :: b :: r =>
    if p = MOTOR_DIRECTION_PIN then
      (match b with
       | Action.setLevel q w => decide (q = motor_on_pin) && decide (w = 0)
       | Action.delay _ => false) &&
        dir_write_then_enable motor_on_pin (b :: r)
    else dir_write_then_enable motor_on_pin (b :: r)
  | Action.delay _ :: r => dir_write_then_enable motor_on_pin r

/-- Checks that every write to the direction line happens at a moment
when the enable line (assumed distinct from the direction line) is at
level 0 (Active); `lv` is the enable line's current level. -/
def dir_set_while_on (motor_on_pin : Int) : Nat → List Action → Bool
  | _, [] => true
  | lv, Action.setLevel p v :: r =>
    if p = MOTOR_DIRECTION_PIN then
      lv == 0 && dir_set_while_on motor_on_pin lv r
    else if p = motor_on_pin then dir_set_while_on motor_on_pin v r
    else dir_set_while_on motor_on_pin lv r
  | lv, Action.delay _ :: r => dir_set_while_on motor_on_pin lv r

/-! ### Direction-write projection of the motor engine (for C9)

These observers re-run the engine's loop structure, recording the
direction string of each step actually entered instead of the actions;
the threaded `total_runtime` is the same as `run_motor_step`'s. -/

/-- The `total_runtime` update of one `run_motor_step` (independent of
the enable pin, which only affects the emitted actions). -/
def run_motor_step_total (target total : Nat) (p : MotorPattern) : Nat :=
  (run_motor_step MOTOR_ON_PIN target total p).2

/-- Directions of the steps entered by one pass of the inner loop,
with the resulting `total_runtime`. -/
def run_motor_steps_dirs (target : Nat) : List MotorPattern → Nat → List String × Nat
  | [], total => ([], total)
  | p :: ps, total =>
    if total < target then
      let r := run_motor_steps_dirs target ps (run_motor_step_total target total p)
      (p.direction :: r.1, r.2)
    else ([], total)

/-- Directions of the steps entered over all executed repeats. -/
def run_motor_repeats_dirs (target : Nat) (pattern : List MotorPattern) :
    Nat → Nat → List String
  | 0, _ => []
  | k + 1, total =>
    if total < target then
      let r := run_motor_steps_dirs target pattern total
      r.1 ++ run_motor_repeats_dirs target pattern k r.2
    else []

/-- Directions of all steps a whole motor instruction enters. -/
def run_motor_task_dirs (mc : MotorConfig) (duration : Nat) : List String :=
  run_motor_repeats_dirs duration mc.pattern mc.repeatTimes 0

/-- The level `run_motor_task` writes to the direction line for a given
direction string (main.c lines 145-146). -/
def dir_level (s : String) : Nat := if s == "cw" then 0 else 1

/-! ### Concrete configuration documents used in the claims -/

/-- A parsed configuration whose single component names an actuator
absent from the registry. -/
def c1_bad_doc : List JPhase :=
  [{ name := "p", startTime := 0,
     components := [{ compId := "Nonexistent", start := 0, duration := 100,
                      motorConfig := none }] }]

/-- A parsed configuration with a present `motorConfig` whose `pattern`
array is empty. -/
def c1_empty_pattern_doc : List JPhase :=
  [{ name := "p", startTime := 0,
     components := [{ compId := "Motor", start := 0, duration := 100,
                      motorConfig :=
                        some { pattern := [], repeatTimes := some 3,
                               runningStyle := some "Single Direction" } }] }]

/-- The motor configuration of end-to-end scenario C:
one step `{stepTime:1000, direction:cw, pauseTime:500}`, repeated 3
times. -/
def scenario_c_config : MotorConfig :=
  { pattern := [{ stepTime := 1000, direction := "cw", pauseTime := 500 }],
    repeatTimes := 3, runningStyle := "Single Direction" }

/-! ### Generic trace lemmas -/

theorem elapsed_append (a b : List Action) : elapsed (a ++ b) = elapsed a + elapsed b := by
  induction a with
  | nil => simp [elapsed]
  | cons x r ih =>
    cases x with
    | setLevel p v => simpa [elapsed] using ih
    | delay d => simp [elapsed, ih]; omega

theorem elapsed_take_le (l : List Action) (n : Nat) : elapsed (l.take n) ≤ elapsed l := by
  induction l generalizing n with
  | nil => simp
  | cons x r ih =>
    cases n with
    | zero => simp [elapsed]
    | succ m =>
      cases x with
      | setLevel p v => simpa [elapsed] using ih m
      | delay d => simpa [elapsed] using ih m

theorem lineWrites_append (pin : Int) (a b : List Action) :
    lineWrites pin (a ++ b) = lineWrites pin a ++ lineWrites pin b := by
  simp [lineWrites, List.filterMap_append]

theorem lineWrites_nil (pin : Int) : lineWrites pin [] = [] := rfl

theorem lineWrites_cons_delay (pin : Int) (d : Nat) (r : List Action) :
    lineWrites pin (Action.delay d :: r) = lineWrites pin r := by
  simp [lineWrites]

theorem lineWrites_cons_set (pin p : Int) (v : Nat) (r : List Action) :
    lineWrites pin (Action.setLevel p v :: r) =
      if p = pin then v :: lineWrites pin r else lineWrites pin r := by
  by_cases h : p = pin <;> simp [lineWrites, h]

theorem finalLevel_cons_set (pin p : Int) (v : Nat) (r : List Action) (lv : Nat) :
    finalLevel pin (Action.setLevel p v :: r) lv =
      finalLevel pin r (if p = pin then v else lv) := rfl

theorem finalLevel_cons_delay (pin : Int) (d : Nat) (r : List Action) (lv : Nat) :
    finalLevel pin (Action.delay d :: r) lv = finalLevel pin r lv := rfl

theorem finalLevel_eq_getLastD (pin : Int) (tr : List Action) (lv : Nat) :
    finalLevel pin tr lv = (lineWrites pin tr).getLastD lv := by
  induction tr generalizing lv with
  | nil => simp [finalLevel, lineWrites]
  | cons x r ih =>
    cases x with
    | setLevel p v =>
      by_cases h : p = pin
      · rw [finalLevel_cons_set, if_pos h, lineWrites_cons_set, if_pos h,
          List.getLastD_cons]
        exact ih v
      · rw [finalLevel_cons_set, if_neg h, lineWrites_cons_set, if_neg h]
        exact ih lv
    | delay d =>
      rw [finalLevel_cons_delay, lineWrites_cons_delay]
      exact ih lv

theorem getLastD_append_singleton (l : List Nat) (a v : Nat) :
    (l ++ [a]).getLastD v = a := by
  induction l generalizing v with
  | nil => rfl
  | cons x r ih =>
    rw [List.cons_append, List.getLastD_cons]
    exact ih x

theorem run_motor_task_eq_concat (pin : Int) (mc : MotorConfig) (dur : Nat) :
    run_motor_task pin mc dur =
      (Action.setLevel pin 0 :: (run_motor_repeats pin dur mc.pattern mc.repeatTimes 0).1) ++
        [Action.setLevel pin 1] := by
  simp [run_motor_task]

theorem run_motor_repeats_nil_pattern (pin : Int) (target : Nat) :
    ∀ (k total : Nat), run_motor_repeats pin target [] k total = ([], total) := by
  intro k
  induction k with
  | zero => intro total; rfl
  | succ m ih =>
    intro total
    simp only [run_motor_repeats, run_motor_steps]
    split
    · simp [ih]
    · rfl

/-- C3: for every motor instruction — any repeat count (including 0),
any pattern (including the empty one), any budget — the last observable
action of the Motor Pattern Engine is a write of the Inactive level (1)
to the motor enable line; in particular the last write to the enable
line is a disable, and the enable line's final level is Inactive
whatever level it started at. -/
theorem c3_motor_disabled_on_every_exit (pin : Int) (mc : MotorConfig) (dur : Nat) :
    (run_motor_task pin mc dur).getLast? = some (Action.setLevel pin 1)
    ∧ (lineWrites pin (run_motor_task pin mc dur)).getLast? = some 1
    ∧ ∀ v : Nat, finalLevel pin (run_motor_task pin mc dur) v = 1 := by
  refine ⟨?_, ?_, ?_⟩
  · rw [run_motor_task_eq_concat]
    exact List.getLast?_concat _
  · rw [run_motor_task_eq_concat, lineWrites_append]
    have h1 : lineWrites pin [Action.setLevel pin 1] = [1] := by
      rw [lineWrites_cons_set, if_pos rfl, lineWrites_nil]
    rw [h1]
    exact List.getLast?_concat _
  · intro v
    rw [finalLevel_eq_getLastD, run_motor_task_eq_concat, lineWrites_append]
    have h1 : lineWrites pin [Action.setLevel pin 1] = [1] := by
      rw [lineWrites_cons_set, if_pos rfl, lineWrites_nil]
    rw [h1, getLastD_append_singleton]

/-- C5 as stated is false: with `repeatTimes = 0` the engine still
drives the enable line Active (main.c line 131 runs before the loop
guard is ever tested), so it is not true that it "never drives the
enable line Active". -/
theorem c5_counterexample :
    Action.setLevel MOTOR_ON_PIN 0 ∈
      run_motor_task MOTOR_ON_PIN
        { pattern := [{ stepTime := 100, direction := "cw", pauseTime := 50 }],
          repeatTimes := 0, runningStyle := "Single Direction" } 1000 := by
  rw [run_motor_task_eq_concat]
  exact List.mem_append_left _ (List.mem_cons_self _ _)

/-- C5 amended: with `repeatCount` 0 or an empty step sequence the
engine performs no delays and no direction writes; its whole trace is
the initial enable immediately followed by the final defensive disable,
zero time elapses, and the enable line ends Inactive. -/
theorem c5_noop_enables_then_disables (pin : Int) (mc : MotorConfig) (dur : Nat)
    (h : mc.repeatTimes = 0 ∨ mc.pattern = []) :
    run_motor_task pin mc dur = [Action.setLevel pin 0, Action.setLevel pin 1]
    ∧ elapsed (run_motor_task pin mc dur) = 0
    ∧ ∀ v : Nat, finalLevel pin (run_motor_task pin mc dur) v = 1 := by
  have htr : run_motor_task pin mc dur = [Action.setLevel pin 0, Action.setLevel pin 1] := by
    rcases h with h0 | hp
    · rw [run_motor_task_eq_concat, h0]
      rfl
    · rw [run_motor_task_eq_concat, hp, run_motor_repeats_nil_pattern]
      rfl
  refine ⟨htr, ?_, ?_⟩
  · rw [htr]; rfl
  · intro v
    rw [htr, finalLevel_cons_set, if_pos rfl, finalLevel_cons_set, if_pos rfl]
    rfl

theorem c5_witness :
    run_motor_task 4
        { pattern := [{ stepTime := 100, direction := "cw", pauseTime := 50 }],
          repeatTimes := 0, runningStyle := "Single Direction" } 1000 =
      [Action.setLevel 4 0, Action.setLevel 4 1] :=
  (c5_noop_enables_then_disables 4
    { pattern := [{ stepTime := 100, direction := "cw", pauseTime := 50 }],
      repeatTimes := 0, runningStyle := "Single Direction" } 1000 (Or.inl rfl)).1

theorem run_motor_step_head (pin : Int) (target total : Nat) (p : MotorPattern) :
    (run_motor_step pin target total p).1.head? =
      some (Action.setLevel MOTOR_DIRECTION_PIN (if p.direction == "cw" then 0 else 1)) := by
  unfold run_motor_step
  dsimp only
  split_ifs <;> rfl

/-- C10: the engine's direction test is an exact, case-sensitive string
comparison with `"cw"`: the first action of every step writes the
direction line, with the clockwise level 0 exactly when the step's
direction string equals `"cw"`, and the counter-clockwise level 1 for
every other string — including `"CW"` and misspellings, which are
silently treated as counter-clockwise. -/
theorem c10_direction_cw_exact_match (pin : Int) (target total : Nat) (p : MotorPattern) :
    ((run_motor_step pin target total p).1.head? =
        some (Action.setLevel MOTOR_DIRECTION_PIN 0) ↔ p.direction = "cw")
    ∧ ((run_motor_step pin target total p).1.head? =
        some (Action.setLevel MOTOR_DIRECTION_PIN 1) ↔ ¬ p.direction = "cw")
    ∧ (run_motor_step 4 1000 0 { stepTime := 100, direction := "CW", pauseTime := 0 }).1.head?
        = some (Action.setLevel MOTOR_DIRECTION_PIN 1)
    ∧ (run_motor_step 4 1000 0 { stepTime := 100, direction := "ccw", pauseTime := 0 }).1.head?
        = some (Action.setLevel MOTOR_DIRECTION_PIN 1)
    ∧ (run_motor_step 4 1000 0 { stepTime := 100, direction := "cw", pauseTime := 0 }).1.head?
        = some (Action.setLevel MOTOR_DIRECTION_PIN 0) := by
  refine ⟨?_, ?_, ?_, ?_, ?_⟩
  · rw [run_motor_step_head]
    by_cases hd : p.direction = "cw" <;> simp [hd]
  · rw [run_motor_step_head]
    by_cases hd : p.direction = "cw" <;> simp [hd]
  · rw [run_motor_step_head]
    decide
  · rw [run_motor_step_head]
    decide
  · rw [run_motor_step_head]
    decide

/-- C1 is right about the intended design but the code lacks it: the
loader of `main.c` has no failure path on a parsed document.  It
returns success for every document; an unresolvable `compId` is stored
with pin `-1` (the `NotFound` value of `map_name_to_pin`) and the run
proceeds, the component task then driving the invalid line `-1`; a
present `motorConfig` with an empty `pattern` array also loads
successfully.  (A document missing a required numeric field makes the C
code dereference a null `cJSON` pointer rather than return failure.) -/
theorem c1_loader_performs_no_validation :
    (∀ doc : List JPhase, (load_json_config doc).1 = true)
    ∧ map_name_to_pin "Nonexistent" = -1
    ∧ (load_json_config c1_bad_doc).1 = true
    ∧ ((load_json_config c1_bad_doc).2.map (fun ph => ph.components.map (fun c => c.pin)))
        = [[-1]]
    ∧ (load_json_config c1_empty_pattern_doc).1 = true
    ∧ ((load_json_config c1_empty_pattern_doc).2.map
          (fun ph => ph.components.map (fun c => c.motorConfig))) =
        [[some { pattern := [], repeatTimes := 3, runningStyle := "Single Direction" }]]
    ∧ Action.setLevel (-1) 0 ∈
        component_task (mk_task_arg (load_component
          { compId := "Nonexistent", start := 0, duration := 100, motorConfig := none })) := by
  refine ⟨fun doc => rfl, by decide, rfl, by decide, rfl, by decide, ?_⟩
  have h : component_task (mk_task_arg (load_component
      { compId := "Nonexistent", start := 0, duration := 100, motorConfig := none })) =
      [Action.setLevel (-1) 0, Action.delay 100, Action.setLevel (-1) 1] := by decide
  rw [h]
  exact List.mem_cons_self _ _

/-- C6: the inter-phase delays the scheduler computes coincide, phase by
phase, with the spec's `max(0, startOffset - lastPhaseStart)` (over
integers, so in particular they are never negative), with
`lastPhaseStart` threading exactly as specified; an empty program makes
the scheduler perform no action and spawn no component task; and in
end-to-end scenario B (phase1 at 0, phase2 at 500) the delays are
`[0, 500]`. -/
theorem c6_scheduler_delays (last : Nat) (ps : List Phase) :
    (sched_delays last ps).map (fun d : Nat => (d : Int)) = spec_delays last ps
    ∧ scheduler_trace 0 [] = []
    ∧ app_spawned ([] : List Phase) = []
    ∧ sched_delays 0
        [{ name := "phase1", startTime := 0,
           components := [{ compId := "Cold Valve", pin := 9, start := 0, duration := 500,
                            stepTime := 0, runningStyle := "toggle", pauseTime := 0,
                            motorConfig := none }] },
         { name := "phase2", startTime := 500, components := [] }] = [0, 500] := by
  refine ⟨?_, rfl, rfl, by decide⟩
  induction ps generalizing last with
  | nil => rfl
  | cons p rest ih =>
    have hhead : ((this_delay p.startTime last : Nat) : Int) = spec_delay p.startTime last := by
      simp only [this_delay, spec_delay, max_def]
      split_ifs <;> omega
    rw [show sched_delays last (p :: rest) =
          this_delay p.startTime last :: sched_delays p.startTime rest from rfl,
      show spec_delays last (p :: rest) =
          spec_delay p.startTime last :: spec_delays p.startTime rest from rfl,
      List.map_cons, hhead, ih]

theorem foldl_running_max_facts (f : ComponentInput → Nat) (comps : List ComponentInput) :
    ∀ init : Nat,
      (init ≤ comps.foldl (fun pd c => if f c > pd then f c else pd) init)
      ∧ (∀ c ∈ comps, f c ≤ comps.foldl (fun pd c => if f c > pd then f c else pd) init)
      ∧ (comps.foldl (fun pd c => if f c > pd then f c else pd) init = init
        ∨ ∃ c ∈ comps, comps.foldl (fun pd c => if f c > pd then f c else pd) init = f c) := by
  induction comps with
  | nil => exact fun init => ⟨le_refl _, by simp, Or.inl rfl⟩
  | cons c cs ih =>
    intro init
    simp only [List.foldl_cons]
    obtain ⟨h1, h2, h3⟩ := ih (if f c > init then f c else init)
    refine ⟨?_, ?_, ?_⟩
    · refine le_trans ?_ h1
      split_ifs with h <;> omega
    · intro d hd
      rcases List.mem_cons.mp hd with rfl | hmem
      · refine le_trans ?_ h1
        split_ifs with h <;> omega
      · exact h2 d hmem
    · rcases h3 with heq | ⟨d, hd, heq⟩
      · by_cases h : f c > init
        · rw [if_pos h] at heq ⊢
          exact Or.inr ⟨c, List.mem_cons_self _ _, heq⟩
        · rw [if_neg h] at heq ⊢
          exact Or.inl heq
      · exact Or.inr ⟨d, List.mem_cons_of_mem _ hd, heq⟩

theorem phase_duration_eq_foldl (comps : List ComponentInput) :
    phase_duration comps =
      comps.foldl
        (fun pd c =>
          if (c.start + c.duration) % M > pd then (c.start + c.duration) % M else pd) 0 :=
  rfl

/-- C7: the phase duration `run_phase` computes is exactly the maximum
over the phase's components of `startOffset + duration` (a `uint32_t`
sum): 0 for an empty phase, an upper bound of every component's finish
time, attained by some component when the phase is non-empty — and it
depends only on the declared `start`/`duration` fields, not on any
motor configuration (so not on a motor pattern's actual consumption). -/
theorem c7_phase_duration_is_max (comps : List ComponentInput) :
    (comps = [] → phase_duration comps = 0)
    ∧ (∀ c ∈ comps, (c.start + c.duration) % M ≤ phase_duration comps)
    ∧ (comps ≠ [] → ∃ c ∈ comps, phase_duration comps = (c.start + c.duration) % M)
    ∧ ∀ f : ComponentInput → Option MotorConfig,
        phase_duration (comps.map fun c => { c with motorConfig := f c }) =
          phase_duration comps := by
  obtain ⟨h1, h2, h3⟩ :=
    foldl_running_max_facts (fun c => (c.start + c.duration) % M) comps 0
  rw [← phase_duration_eq_foldl] at h1 h2 h3
  refine ⟨fun h => by rw [h]; rfl, h2, ?_, ?_⟩
  · intro hne
    rcases h3 with heq | hex
    · cases comps with
      | nil => exact absurd rfl hne
      | cons c cs =>
        refine ⟨c, List.mem_cons_self _ _, ?_⟩
        have hle := h2 c (List.mem_cons_self _ _)
        omega
    · exact hex
  · intro f
    rw [phase_duration_eq_foldl, phase_duration_eq_foldl, List.foldl_map]

theorem c7_witness :
    phase_duration
        [{ compId := "Cold Valve", pin := 9, start := 0, duration := 500,
           stepTime := 0, runningStyle := "toggle", pauseTime := 0, motorConfig := none },
         { compId := "Hot Valve", pin := 5, start := 500, duration := 1000,
           stepTime := 0, runningStyle := "toggle", pauseTime := 0, motorConfig := none }]
        = 1500
    ∧ (500 + 1000) % M ≤ phase_duration
        [{ compId := "Cold Valve", pin := 9, start := 0, duration := 500,
           stepTime := 0, runningStyle := "toggle", pauseTime := 0, motorConfig := none },
         { compId := "Hot Valve", pin := 5, start := 500, duration := 1000,
           stepTime := 0, runningStyle := "toggle", pauseTime := 0, motorConfig := none }] := by
  refine ⟨by decide, ?_⟩
  exact (c7_phase_duration_is_max
      [{ compId := "Cold Valve", pin := 9, start := 0, duration := 500,
         stepTime := 0, runningStyle := "toggle", pauseTime := 0, motorConfig := none },
       { compId := "Hot Valve", pin := 5, start := 500, duration := 1000,
         stepTime := 0, runningStyle := "toggle", pauseTime := 0, motorConfig := none }]).2.1
    { compId := "Hot Valve", pin := 5, start := 500, duration := 1000,
      stepTime := 0, runningStyle := "toggle", pauseTime := 0, motorConfig := none }
    (by simp)

/-- C8: a simple (non-motor) component task performs exactly: wait
`start` (skipped when zero, so the first observable action when
`start > 0` is that wait), drive the line Active (0), wait `duration`,
drive it Inactive (1).  Consequently the line is at its initial
Inactive level strictly before `start`, Inactive again strictly after
`start + duration`, and Active in between. -/
theorem c8_simple_component_timing (c : ComponentTaskArg) (h : c.motorConfig = none) :
    component_task c =
      (if c.start > 0 then [Action.delay c.start] else []) ++
        [Action.setLevel c.pin 0, Action.delay c.duration, Action.setLevel c.pin 1]
    ∧ (c.start > 0 → (component_task c).head? = some (Action.delay c.start))
    ∧ (∀ t : Nat, t < c.start → levelAt c.pin (component_task c) 1 t = 1)
    ∧ (∀ t : Nat, c.start + c.duration < t → levelAt c.pin (component_task c) 1 t = 1)
    ∧ (∀ t : Nat, c.start ≤ t → t < c.start + c.duration →
        levelAt c.pin (component_task c) 1 t = 0) := by
  have htr : component_task c =
      (if c.start > 0 then [Action.delay c.start] else []) ++
        [Action.setLevel c.pin 0, Action.delay c.duration, Action.setLevel c.pin 1] := by
    simp [component_task, h]
  refine ⟨htr, ?_, ?_, ?_, ?_⟩
  · intro hs
    rw [htr, if_pos hs]
    rfl
  · intro t ht
    have hs : c.start > 0 := by omega
    rw [htr, if_pos hs]
    simp [levelAt, ht]
  · intro t ht
    rw [htr]
    by_cases hs : c.start > 0
    · have h1 : ¬ t < c.start := by omega
      have h2 : ¬ t - c.start < c.duration := by omega
      rw [if_pos hs]
      simp [levelAt, h1, h2]
    · have h2 : ¬ t < c.duration := by omega
      rw [if_neg hs]
      simp [levelAt, h2]
  · intro t ht1 ht2
    rw [htr]
    by_cases hs : c.start > 0
    · have h1 : ¬ t < c.start := by omega
      have h2 : t - c.start < c.duration := by omega
      rw [if_pos hs]
      simp [levelAt, h1, h2]
    · have h2 : t < c.duration := by omega
      rw [if_neg hs]
      simp [levelAt, h2]

theorem c8_witness :
    levelAt 9 (component_task
        { compId := "Cold Valve", pin := 9, start := 100, duration := 1000,
          motorConfig := none }) 1 50 = 1
    ∧ levelAt 9 (component_task
        { compId := "Cold Valve", pin := 9, start := 100, duration := 1000,
          motorConfig := none }) 1 2000 = 1
    ∧ levelAt 9 (component_task
        { compId := "Cold Valve", pin := 9, start := 100, duration := 1000,
          motorConfig := none }) 1 600 = 0 :=
  ⟨(c8_simple_component_timing
      { compId := "Cold Valve", pin := 9, start := 100, duration := 1000,
        motorConfig := none } rfl).2.2.1 50 (by decide),
   (c8_simple_component_timing
      { compId := "Cold Valve", pin := 9, start := 100, duration := 1000,
        motorConfig := none } rfl).2.2.2.1 2000 (by decide),
   (c8_simple_component_timing
      { compId := "Cold Valve", pin := 9, start := 100, duration := 1000,
        motorConfig := none } rfl).2.2.2.2 600 (by decide) (by decide)⟩

theorem run_motor_step_total_spec (pin : Int) (target total : Nat) (p : MotorPattern)
    (hT : target < M) (hb1 : p.stepTime + target < M) (hb2 : p.pauseTime + target < M)
    (htot : total < target) :
    (run_motor_step pin target total p).2 = min target (total + p.stepTime + p.pauseTime)
    ∧ elapsed (run_motor_step pin target total p).1 + total =
        (run_motor_step pin target total p).2 := by
  simp only [M] at hT hb1 hb2
  unfold run_motor_step
  simp only [M]
  split_ifs <;> simp only [elapsed] <;> omega

theorem run_motor_steps_total_spec (pin : Int) (target : Nat) (ps : List MotorPattern)
    (hT : target < M)
    (hb : ∀ p ∈ ps, p.stepTime + target < M ∧ p.pauseTime + target < M) :
    ∀ total, total ≤ target →
      (run_motor_steps pin target ps total).2 = min target (total + pattern_total ps)
      ∧ elapsed (run_motor_steps pin target ps total).1 + total =
          (run_motor_steps pin target ps total).2 := by
  induction ps with
  | nil =>
    intro total htot
    simp only [run_motor_steps, pattern_total, List.foldr_nil, elapsed]
    omega
  | cons p ps' ih =>
    intro total htot
    simp only [run_motor_steps]
    split
    case isTrue hlt =>
      obtain ⟨hs1, hs2⟩ := run_motor_step_total_spec pin target total p hT
        (hb p (List.mem_cons_self _ _)).1 (hb p (List.mem_cons_self _ _)).2 hlt
      have hle : (run_motor_step pin target total p).2 ≤ target := by
        rw [hs1]; exact min_le_left _ _
      obtain ⟨hr1, hr2⟩ := ih (fun q hq => hb q (List.mem_cons_of_mem _ hq))
        (run_motor_step pin target total p).2 hle
      dsimp only
      constructor
      · rw [hr1, hs1]
        simp only [pattern_total, List.foldr_cons]
        omega
      · rw [elapsed_append]
        omega
    case isFalse hge =>
      dsimp only
      simp only [elapsed, pattern_total, List.foldr_cons]
      omega

theorem run_motor_repeats_total_spec (pin : Int) (target : Nat) (ps : List MotorPattern)
    (hT : target < M)
    (hb : ∀ p ∈ ps, p.stepTime + target < M ∧ p.pauseTime + target < M) :
    ∀ (k : Nat) (total : Nat), total ≤ target →
      (run_motor_repeats pin target ps k total).2 = min target (total + k * pattern_total ps)
      ∧ elapsed (run_motor_repeats pin target ps k total).1 + total =
          (run_motor_repeats pin target ps k total).2 := by
  intro k
  induction k with
  | zero =>
    intro total htot
    simp only [run_motor_repeats, Nat.zero_mul, Nat.add_zero, elapsed]
    omega
  | succ m ih =>
    intro total htot
    simp only [run_motor_repeats]
    split
    case isTrue hlt =>
      obtain ⟨hs1, hs2⟩ := run_motor_steps_total_spec pin target ps hT hb total htot
      have hle : (run_motor_steps pin target ps total).2 ≤ target := by
        rw [hs1]; exact min_le_left _ _
      obtain ⟨hr1, hr2⟩ := ih (run_motor_steps pin target ps total).2 hle
      dsimp only
      constructor
      · rw [hr1, hs1]
        have hmul : (m + 1) * pattern_total ps = pattern_total ps + m * pattern_total ps := by
          rw [Nat.succ_mul, Nat.add_comm]
        rw [hmul]
        generalize m * pattern_total ps = X
        omega
      · rw [elapsed_append]
        omega
    case isFalse hge =>
      dsimp only
      simp only [elapsed]
      generalize (m + 1) * pattern_total ps = X
      omega

/-- Total `vTaskDelay` time of a whole motor instruction: the declared
budget clipped by the pattern's undamped total. -/
theorem run_motor_task_elapsed_eq (pin : Int) (mc : MotorConfig) (dur : Nat)
    (hT : dur < M)
    (hb : ∀ p ∈ mc.pattern, p.stepTime + dur < M ∧ p.pauseTime + dur < M) :
    elapsed (run_motor_task pin mc dur) = min dur (undamped_total mc) := by
  obtain ⟨h1, h2⟩ := run_motor_repeats_total_spec pin dur mc.pattern hT hb mc.repeatTimes 0
    (Nat.zero_le _)
  rw [run_motor_task_eq_concat, List.cons_append]
  simp only [elapsed, elapsed_append]
  rw [undamped_total]
  generalize mc.repeatTimes * pattern_total mc.pattern = U at h1 ⊢
  omega

/-- C2: when a motor instruction's undamped pattern time (over all
repeats) exceeds the budget `T = duration`, the engine's executed run
and pause slices sum to exactly `T`: total delay time equals `T`, and no
prefix of the trace ever accumulates more than `T` of delay (slices are
clipped to the remaining budget, never overshooting and never stopping
short of `T`).  End-to-end scenario C (budget 2500, one step
`{1000, cw, 500}` repeated 3 times) executes exactly run 1000 (cw),
pause 500, run 1000 (cw) and stops before the second repeat's pause,
ending with the motor disabled. -/
theorem c2_budget_exactly_consumed (pin : Int) (mc : MotorConfig) (dur : Nat)
    (hT : dur < M)
    (hb : ∀ p ∈ mc.pattern, p.stepTime + dur < M ∧ p.pauseTime + dur < M)
    (hover : undamped_total mc > dur) :
    elapsed (run_motor_task pin mc dur) = dur
    ∧ (∀ n : Nat, elapsed ((run_motor_task pin mc dur).take n) ≤ dur)
    ∧ run_motor_task MOTOR_ON_PIN scenario_c_config 2500 =
        [Action.setLevel MOTOR_ON_PIN 0, Action.setLevel MOTOR_DIRECTION_PIN 0,
         Action.delay 1000, Action.setLevel MOTOR_ON_PIN 1, Action.delay 500,
         Action.setLevel MOTOR_ON_PIN 0, Action.setLevel MOTOR_DIRECTION_PIN 0,
         Action.delay 1000, Action.setLevel MOTOR_ON_PIN 1]
    ∧ elapsed (run_motor_task MOTOR_ON_PIN scenario_c_config 2500) = 2500 := by
  have hfull : elapsed (run_motor_task pin mc dur) = dur := by
    rw [run_motor_task_elapsed_eq pin mc dur hT hb]
    omega
  refine ⟨hfull, ?_, by decide, by decide⟩
  intro n
  calc elapsed ((run_motor_task pin mc dur).take n)
      ≤ elapsed (run_motor_task pin mc dur) := elapsed_take_le _ n
    _ = dur := hfull

theorem c2_witness :
    elapsed (run_motor_task 4 scenario_c_config 2500) = 2500
    ∧ elapsed ((run_motor_task 4 scenario_c_config 2500).take 5) ≤ 2500 := by
  have h := c2_budget_exactly_consumed 4 scenario_c_config 2500 (by decide)
    (by decide) (by decide)
  exact ⟨h.1, h.2.1 5⟩

theorem finalLevel_append (pin : Int) (a b : List Action) (lv : Nat) :
    finalLevel pin (a ++ b) lv = finalLevel pin b (finalLevel pin a lv) := by
  induction a generalizing lv with
  | nil => rfl
  | cons x r ih =>
    cases x with
    | setLevel p v =>
      rw [List.cons_append, finalLevel_cons_set, finalLevel_cons_set, ih]
    | delay d =>
      rw [List.cons_append, finalLevel_cons_delay, finalLevel_cons_delay, ih]

theorem dir_set_while_on_append (pin : Int) (hp : pin ≠ MOTOR_DIRECTION_PIN)
    (a b : List Action) (lv : Nat) :
    dir_set_while_on pin lv (a ++ b) =
      (dir_set_while_on pin lv a && dir_set_while_on pin (finalLevel pin a lv) b) := by
  induction a generalizing lv with
  | nil => simp [dir_set_while_on, finalLevel]
  | cons x r ih =>
    cases x with
    | setLevel p v =>
      by_cases h10 : p = MOTOR_DIRECTION_PIN
      · have hpp : p ≠ pin := by rw [h10]; exact Ne.symm hp
        rw [List.cons_append]
        simp only [dir_set_while_on, finalLevel_cons_set, if_pos h10, if_neg hpp, ih,
          Bool.and_assoc]
      · by_cases hpin : p = pin
        · rw [List.cons_append]
          simp only [dir_set_while_on, finalLevel_cons_set, if_neg h10, if_pos hpin, ih]
        · rw [List.cons_append]
          simp only [dir_set_while_on, finalLevel_cons_set, if_neg h10, if_neg hpin, ih]
    | delay d =>
      rw [List.cons_append]
      simp only [dir_set_while_on, finalLevel_cons_delay, ih]

theorem dir_ok_run_motor_step (pin : Int) (hp : pin ≠ MOTOR_DIRECTION_PIN)
    (target total : Nat) (p : MotorPattern) :
    dir_set_while_on pin 0 (run_motor_step pin target total p).1 = true
    ∧ (finalLevel pin (run_motor_step pin target total p).1 0 = 0
       ∨ (run_motor_step pin target total p).2 ≥ target) := by
  have hp' : MOTOR_DIRECTION_PIN ≠ pin := Ne.symm hp
  unfold run_motor_step
  dsimp only
  simp only [M]
  split_ifs
  all_goals refine ⟨by simp [dir_set_while_on, hp, hp'], ?_⟩
  all_goals try (refine Or.inl ?_; simp [finalLevel, hp, hp']; done)
  all_goals refine Or.inr ?_
  all_goals dsimp only
  all_goals omega

theorem dir_ok_run_motor_steps (pin : Int) (hp : pin ≠ MOTOR_DIRECTION_PIN)
    (target : Nat) (ps : List MotorPattern) :
    ∀ (total lv : Nat), (lv = 0 ∨ total ≥ target) →
      dir_set_while_on pin lv (run_motor_steps pin target ps total).1 = true
      ∧ (finalLevel pin (run_motor_steps pin target ps total).1 lv = 0
         ∨ (run_motor_steps pin target ps total).2 ≥ target) := by
  induction ps with
  | nil =>
    intro total lv hinv
    exact ⟨rfl, hinv⟩
  | cons p ps' ih =>
    intro total lv hinv
    simp only [run_motor_steps]
    split
    case isTrue hlt =>
      have hlv : lv = 0 := by
        rcases hinv with h | h
        · exact h
        · omega
      subst hlv
      obtain ⟨sok, sdisj⟩ := dir_ok_run_motor_step pin hp target total p
      obtain ⟨rok, rdisj⟩ := ih (run_motor_step pin target total p).2
        (finalLevel pin (run_motor_step pin target total p).1 0) sdisj
      dsimp only
      rw [dir_set_while_on_append pin hp, finalLevel_append]
      exact ⟨by rw [sok, rok]; rfl, rdisj⟩
    case isFalse hge =>
      exact ⟨rfl, hinv⟩

theorem dir_ok_run_motor_repeats (pin : Int) (hp : pin ≠ MOTOR_DIRECTION_PIN)
    (target : Nat) (ps : List MotorPattern) :
    ∀ (k total lv : Nat), (lv = 0 ∨ total ≥ target) →
      dir_set_while_on pin lv (run_motor_repeats pin target ps k total).1 = true
      ∧ (finalLevel pin (run_motor_repeats pin target ps k total).1 lv = 0
         ∨ (run_motor_repeats pin target ps k total).2 ≥ target) := by
  intro k
  induction k with
  | zero =>
    intro total lv hinv
    exact ⟨rfl, hinv⟩
  | succ m ih =>
    intro total lv hinv
    simp only [run_motor_repeats]
    split
    case isTrue hlt =>
      obtain ⟨sok, sdisj⟩ := dir_ok_run_motor_steps pin hp target ps total lv hinv
      obtain ⟨rok, rdisj⟩ := ih (run_motor_steps pin target ps total).2
        (finalLevel pin (run_motor_steps pin target ps total).1 lv) sdisj
      dsimp only
      rw [dir_set_while_on_append pin hp, finalLevel_append]
      exact ⟨by rw [sok, rok]; rfl, rdisj⟩
    case isFalse hge =>
      exact ⟨rfl, hinv⟩

/-- C4 as stated is false: a direction-line write is never immediately
followed by an enable — in the code the enable precedes the direction
write, and the action right after a direction write is the run slice's
delay.  Concretely, for one step `{1000, cw, 500}` repeated twice on a
budget of 3000 the trace violates the "direction write immediately
followed by enable" reading of the claim. -/
theorem c4_counterexample :
    dir_write_then_enable MOTOR_ON_PIN
        (run_motor_task MOTOR_ON_PIN
          { pattern := [{ stepTime := 1000, direction := "cw", pauseTime := 500 }],
            repeatTimes := 2, runningStyle := "Single Direction" } 3000) = false := by
  decide

/-- C4 amended: every write to the direction line happens while the
motor enable line is Active (level 0) — the enable is (re-)driven
Active immediately *before*, not after, each direction write, and the
direction is never changed while the motor is disabled mid-pause. -/
theorem c4_direction_set_only_while_enabled (pin : Int) (mc : MotorConfig) (dur : Nat)
    (hp : pin ≠ MOTOR_DIRECTION_PIN) :
    dir_set_while_on pin 1 (run_motor_task pin mc dur) = true := by
  have hp' : MOTOR_DIRECTION_PIN ≠ pin := Ne.symm hp
  rw [run_motor_task_eq_concat, List.cons_append]
  have h0 : dir_set_while_on pin 1
      (Action.setLevel pin 0 ::
        ((run_motor_repeats pin dur mc.pattern mc.repeatTimes 0).1 ++
          [Action.setLevel pin 1])) =
      dir_set_while_on pin 0
        ((run_motor_repeats pin dur mc.pattern mc.repeatTimes 0).1 ++
          [Action.setLevel pin 1]) := by
    simp [dir_set_while_on, hp]
  rw [h0, dir_set_while_on_append pin hp]
  obtain ⟨lok, _⟩ := dir_ok_run_motor_repeats pin hp dur mc.pattern mc.repeatTimes 0 0
    (Or.inl rfl)
  rw [lok]
  simp [dir_set_while_on, hp]

theorem c4_witness :
    dir_set_while_on 4 1 (run_motor_task 4 scenario_c_config 2500) = true :=
  c4_direction_set_only_while_enabled 4 scenario_c_config 2500 (by decide)

theorem run_motor_step_snd_eq (pin : Int) (target total : Nat) (p : MotorPattern) :
    (run_motor_step pin target total p).2 = run_motor_step_total target total p := by
  unfold run_motor_step_total run_motor_step
  dsimp only
  split_ifs <;> rfl

theorem run_motor_step_dir_writes (pin : Int) (hp : pin ≠ MOTOR_DIRECTION_PIN)
    (target total : Nat) (p : MotorPattern) :
    lineWrites MOTOR_DIRECTION_PIN (run_motor_step pin target total p).1 =
      [dir_level p.direction] := by
  unfold run_motor_step
  dsimp only
  split_ifs <;> simp_all [lineWrites, dir_level, hp]

theorem run_motor_steps_dir_writes (pin : Int) (hp : pin ≠ MOTOR_DIRECTION_PIN)
    (target : Nat) (ps : List MotorPattern) :
    ∀ total : Nat,
      lineWrites MOTOR_DIRECTION_PIN (run_motor_steps pin target ps total).1 =
        ((run_motor_steps_dirs target ps total).1).map dir_level
      ∧ (run_motor_steps pin target ps total).2 = (run_motor_steps_dirs target ps total).2 := by
  induction ps with
  | nil => exact fun total => ⟨rfl, rfl⟩
  | cons p ps' ih =>
    intro total
    simp only [run_motor_steps, run_motor_steps_dirs]
    split
    case isTrue hlt =>
      dsimp only
      obtain ⟨ihw, ihs⟩ := ih (run_motor_step_total target total p)
      constructor
      · rw [lineWrites_append, run_motor_step_dir_writes pin hp, run_motor_step_snd_eq,
          ihw, List.map_cons, List.singleton_append]
      · rw [run_motor_step_snd_eq, ihs]
    case isFalse hge =>
      exact ⟨rfl, rfl⟩

theorem run_motor_repeats_dir_writes (pin : Int) (hp : pin ≠ MOTOR_DIRECTION_PIN)
    (target : Nat) (ps : List MotorPattern) :
    ∀ (k total : Nat),
      lineWrites MOTOR_DIRECTION_PIN (run_motor_repeats pin target ps k total).1 =
        (run_motor_repeats_dirs target ps k total).map dir_level := by
  intro k
  induction k with
  | zero => exact fun total => rfl
  | succ m ih =>
    intro total
    simp only [run_motor_repeats, run_motor_repeats_dirs]
    split
    case isTrue hlt =>
      dsimp only
      obtain ⟨hw, hs⟩ := run_motor_steps_dir_writes pin hp target ps total
      rw [lineWrites_append, hw, hs, List.map_append, ih]
    case isFalse hge =>
      rfl

/-- C9: after a motor instruction runs, only the enable line is
restored: the engine's final action writes the Inactive level to the
enable line, while the writes it made to the direction line are
exactly, in order, the levels of the steps it actually entered (0 for
`"cw"`, 1 otherwise) — so the direction line is left at the level of
the last executed step's direction and is never written back to its
previous level. -/
theorem c9_direction_line_not_restored (pin : Int) (mc : MotorConfig) (dur : Nat)
    (hp : pin ≠ MOTOR_DIRECTION_PIN) :
    lineWrites MOTOR_DIRECTION_PIN (run_motor_task pin mc dur) =
      (run_motor_task_dirs mc dur).map dir_level
    ∧ (run_motor_task pin mc dur).getLast? = some (Action.setLevel pin 1)
    ∧ ∀ v : Nat, finalLevel MOTOR_DIRECTION_PIN (run_motor_task pin mc dur) v =
        ((run_motor_task_dirs mc dur).map dir_level).getLastD v := by
  have hw : lineWrites MOTOR_DIRECTION_PIN (run_motor_task pin mc dur) =
      (run_motor_task_dirs mc dur).map dir_level := by
    rw [run_motor_task_eq_concat, List.cons_append, lineWrites_cons_set, if_neg hp,
      lineWrites_append, lineWrites_cons_set, if_neg hp, lineWrites_nil,
      List.append_nil, run_motor_task_dirs]
    exact run_motor_repeats_dir_writes pin hp dur mc.pattern mc.repeatTimes 0
  refine ⟨hw, ?_, ?_⟩
  · rw [run_motor_task_eq_concat]
    exact List.getLast?_concat _
  · intro v
    rw [finalLevel_eq_getLastD, hw]

theorem c9_witness :
    lineWrites MOTOR_DIRECTION_PIN (run_motor_task 4 scenario_c_config 2500) =
      (run_motor_task_dirs scenario_c_config 2500).map dir_level :=
  (c9_direction_line_not_restored 4 scenario_c_config 2500 (by decide)).1

end CycleOptima

